import Mathlib

/-!
Shallow embedding of the certification pallet
(`src/pallets/certification/src/lib.rs`).

The pallet keeps one storage map `ListOfCertifications : Hash -> Certification`
and exposes three dispatchables: `add_certification`, `update_certification`,
`remove_certification`.  The host environment supplies the signed caller and
the current block number; we model both as explicit arguments.  The abstract
runtime hash `T::Hashing::hash_of` on accounts is modelled as an explicit
function argument `hash_of`.  Event deposition is modelled as a returned list
of events, and dispatch errors as `Except`.
-/

/-- Model of `T::AccountId`, an opaque comparable identity. -/
abbrev AccountId := Nat

/-- Model of `T::Hash`, the fixed-size identifier type. -/
abbrev HashVal := Nat

/-- Model of `Vec<u8>`, a caller-supplied byte sequence. -/
abbrev Bytes := List Nat

/-- Model of `BlockNumberFor<T>`. -/
abbrev BlockNumber := Nat

/-- The `Certification` struct of the pallet (lib.rs lines 100-107). -/
structure Certification where
  id : HashVal
  owner_id : AccountId
  title : Bytes
  description : Bytes
  created_at : BlockNumber
  updated_at : BlockNumber
deriving DecidableEq

/-- Constructor `Certification::new` (lib.rs lines 109-111). -/
def Certification.new (id : HashVal) (owner_id : AccountId) (title description : Bytes)
    (created_at updated_at : BlockNumber) : Certification :=
  ⟨id, owner_id, title, description, created_at, updated_at⟩

/-- Accessor `Certification::get_owner_id` (lib.rs lines 117-119). -/
def Certification.get_owner_id (c : Certification) : AccountId :=
  c.owner_id

/-- The pallet's `Event` enum (lib.rs lines 132-148). -/
inductive Event where
  | CertificationStored (who : AccountId) (certification_id : HashVal)
      (created_at : BlockNumber)
  | CertificationUpdated (who : AccountId) (certification_id : HashVal)
      (updated_at : BlockNumber)
  | CertificationRemoved (who : AccountId) (certification_id : HashVal)
deriving DecidableEq

/-- The pallet's `Error` enum (lib.rs lines 153-158). -/
inductive Error where
  | NotOwner
  | CertificationNotFound
deriving DecidableEq

/-- The storage map `ListOfCertifications` (lib.rs line 126), modelled as a
total function to `Option`. -/
def Store := HashVal → Option Certification

/-- The empty storage map: every key is absent. -/
def Store.empty : Store := fun _ => none

/-- Model of `StorageMap::insert` — unconditional upsert. -/
def Store.insert (s : Store) (k : HashVal) (c : Certification) : Store :=
  fun h => if h = k then some c else s h

/-- Model of `StorageMap::get`. -/
def Store.get (s : Store) (k : HashVal) : Option Certification :=
  s k

/-- Model of `StorageMap::remove`. -/
def Store.remove (s : Store) (k : HashVal) : Store :=
  fun h => if h = k then none else s h

/-- Dispatchable `add_certification` (lib.rs lines 173-202).  `who` is the already
authenticated signed caller (ensure_signed is host-side), `block_number`
the value of `frame_system::Pallet::block_number()`. -/
def add_certification (hash_of : AccountId → HashVal) (who : AccountId)
    (title description : Bytes) (block_number : BlockNumber) (s : Store) :
    Except Error (Store × List Event) :=
  Except.ok
    (Store.insert s (hash_of who)
      (Certification.new (hash_of who) who title description block_number block_number),
     [Event.CertificationStored who (hash_of who) block_number])

/-- Dispatchable `update_certification` (lib.rs lines 208-241). -/
def update_certification (who : AccountId) (certification_id : HashVal)
    (title description : Bytes) (block_number : BlockNumber) (s : Store) :
    Except Error (Store × List Event) :=
  match Store.get s certification_id with
  | none => Except.error Error.CertificationNotFound
  | some certification =>
    if certification.get_owner_id = who then
      Except.ok
        (Store.insert s certification_id
          (Certification.new certification_id who title description
            certification.created_at block_number),
         [Event.CertificationUpdated who certification_id block_number])
    else
      Except.error Error.NotOwner

/-- Dispatchable `remove_certification` (lib.rs lines 247-268). -/
def remove_certification (who : AccountId) (certification_id : HashVal)
    (s : Store) : Except Error (Store × List Event) :=
  match Store.get s certification_id with
  | none => Except.error Error.CertificationNotFound
  | some certification =>
    if certification.get_owner_id = who then
      Except.ok
        (Store.remove s certification_id,
         [Event.CertificationRemoved who certification_id])
    else
      Except.error Error.NotOwner

/-- One dispatchable call with its arguments (the signed caller first). -/
inductive Op where
  | add (who : AccountId) (title description : Bytes)
  | update (who : AccountId) (certification_id : HashVal) (title description : Bytes)
  | remove (who : AccountId) (certification_id : HashVal)
deriving DecidableEq

/-- Dispatch one call against a store at block number `n`. -/
def opResult (hash_of : AccountId → HashVal) (op : Op) (n : BlockNumber)
    (s : Store) : Except Error (Store × List Event) :=
  match op with
  | Op.add who t d => add_certification hash_of who t d n s
  | Op.update who cid t d => update_certification who cid t d n s
  | Op.remove who cid => remove_certification who cid s

/-- The observable chain state: the storage map plus the log of deposited
events. -/
structure ChainState where
  store : Store
  events : List Event

/-- Apply one dispatchable: on success the store is replaced and the emitted
events are appended to the log; a failed dispatch changes nothing. -/
def step (hash_of : AccountId → HashVal) (op : Op) (n : BlockNumber)
    (st : ChainState) : ChainState :=
  match opResult hash_of op n st.store with
  | Except.ok (s, evs) => ⟨s, st.events ++ evs⟩
  | Except.error _ => st

/-- The single event a successful dispatch of `op` at block `n` deposits. -/
def expectedEvent (hash_of : AccountId → HashVal) (op : Op) (n : BlockNumber) :
    Event :=
  match op with
  | Op.add who _ _ => Event.CertificationStored who (hash_of who) n
  | Op.update who cid _ _ => Event.CertificationUpdated who cid n
  | Op.remove who cid => Event.CertificationRemoved who cid

/-- The only storage key a dispatch of `op` may touch. -/
def touchedKey (hash_of : AccountId → HashVal) (op : Op) : HashVal :=
  match op with
  | Op.add who _ _ => hash_of who
  | Op.update _ cid _ _ => cid
  | Op.remove _ cid => cid

/-- States reachable from genesis by dispatching calls at non-decreasing
block numbers (the host's block counter never goes backwards).  The index
is the block number of the latest dispatch. -/
inductive Reachable (hash_of : AccountId → HashVal) :
    BlockNumber → ChainState → Prop where
  | init : Reachable hash_of 0 ⟨Store.empty, []⟩
  | next {n n' : BlockNumber} {st : ChainState} (op : Op) :
      Reachable hash_of n st → n ≤ n' →
      Reachable hash_of n' (step hash_of op n' st)

/-- A concrete account hash used by closed witnesses. -/
def hashOf (a : AccountId) : HashVal :=
  a + 100

/-- C1: a signed `add_certification` always succeeds, stores at key
`hash_of who` the record with `id = hash_of who`, `owner_id = who`, the given
title and description, and `created_at = updated_at = n`, and emits exactly
`CertificationStored who (hash_of who) n`. -/
theorem c1_add_succeeds_and_stores (hash_of : AccountId → HashVal)
    (a : AccountId) (t d : Bytes) (n : BlockNumber) (s : Store) :
    ∃ s₂ : Store,
      add_certification hash_of a t d n s =
        Except.ok (s₂, [Event.CertificationStored a (hash_of a) n]) ∧
      Store.get s₂ (hash_of a) =
        some (Certification.new (hash_of a) a t d n n) := by
  refine ⟨_, rfl, ?_⟩
  simp [Store.get, Store.insert]

/-- C2: updating a record stored at its own id by its owner succeeds,
replaces only the title and description, sets `updated_at` to the current
block number, keeps `id`, `owner_id` and `created_at`, and emits exactly
`CertificationUpdated who cid n`. -/
theorem c2_update_by_owner (who : AccountId) (cid : HashVal) (t d : Bytes)
    (n : BlockNumber) (s : Store) (c : Certification)
    (hget : Store.get s cid = some c) (hown : c.owner_id = who)
    (hid : c.id = cid) :
    ∃ s₂ : Store,
      update_certification who cid t d n s =
        Except.ok (s₂, [Event.CertificationUpdated who cid n]) ∧
      Store.get s₂ cid =
        some (Certification.new c.id c.owner_id t d c.created_at n) := by
  refine ⟨Store.insert s cid (Certification.new cid who t d c.created_at n),
    ?_, ?_⟩
  · rw [update_certification, hget]
    simp [Certification.get_owner_id, hown]
  · simp [Store.get, Store.insert, Certification.new, hid, hown]

/-- C2 witness: a concrete owner update at a concrete store. -/
theorem c2_update_by_owner_witness :
    ∃ s₂ : Store,
      update_certification 1 5 [7] [8] 9
          (Store.insert Store.empty 5 (Certification.new 5 1 [2] [3] 3 3)) =
        Except.ok (s₂, [Event.CertificationUpdated 1 5 9]) ∧
      Store.get s₂ 5 = some (Certification.new 5 1 [7] [8] 3 9) :=
  c2_update_by_owner 1 5 [7] [8] 9
    (Store.insert Store.empty 5 (Certification.new 5 1 [2] [3] 3 3))
    (Certification.new 5 1 [2] [3] 3 3) rfl rfl rfl

/-- C3: updating an id absent from the store fails with
`CertificationNotFound`, and the chain state (store and event log) is
unchanged. -/
theorem c3_update_missing (hash_of : AccountId → HashVal) (who : AccountId)
    (cid : HashVal) (t d : Bytes) (n : BlockNumber) (st : ChainState)
    (habs : Store.get st.store cid = none) :
    update_certification who cid t d n st.store =
      Except.error Error.CertificationNotFound ∧
    step hash_of (Op.update who cid t d) n st = st := by
  have herr : update_certification who cid t d n st.store =
      Except.error Error.CertificationNotFound := by
    rw [update_certification, habs]
  exact ⟨herr, by rw [step, opResult, herr]⟩

/-- C3 witness: update of an absent id on the genesis state. -/
theorem c3_update_missing_witness :
    update_certification 1 7 [] [] 4 Store.empty =
      Except.error Error.CertificationNotFound ∧
    step hashOf (Op.update 1 7 [] []) 4 ⟨Store.empty, []⟩ =
      ⟨Store.empty, []⟩ :=
  c3_update_missing hashOf 1 7 [] [] 4 ⟨Store.empty, []⟩ rfl

/-- C4: updating an existing record whose stored owner differs from the
caller fails with `NotOwner`, and the chain state (store and event log) is
unchanged. -/
theorem c4_update_not_owner (hash_of : AccountId → HashVal) (who : AccountId)
    (cid : HashVal) (t d : Bytes) (n : BlockNumber) (st : ChainState)
    (c : Certification) (hget : Store.get st.store cid = some c)
    (hown : c.owner_id ≠ who) :
    update_certification who cid t d n st.store = Except.error Error.NotOwner ∧
    step hash_of (Op.update who cid t d) n st = st := by
  have herr : update_certification who cid t d n st.store =
      Except.error Error.NotOwner := by
    rw [update_certification, hget]
    simp [Certification.get_owner_id, hown]
  exact ⟨herr, by rw [step, opResult, herr]⟩

/-- C4 witness: Bob (caller 2) updating Alice's (owner 1) record. -/
theorem c4_update_not_owner_witness :
    update_certification 2 101 [] [] 4
        (Store.insert Store.empty 101 (Certification.new 101 1 [] [] 3 3)) =
      Except.error Error.NotOwner ∧
    step hashOf (Op.update 2 101 [] []) 4
        ⟨Store.insert Store.empty 101 (Certification.new 101 1 [] [] 3 3), []⟩ =
      ⟨Store.insert Store.empty 101 (Certification.new 101 1 [] [] 3 3), []⟩ :=
  c4_update_not_owner hashOf 2 101 [] [] 4
    ⟨Store.insert Store.empty 101 (Certification.new 101 1 [] [] 3 3), []⟩
    (Certification.new 101 1 [] [] 3 3) rfl (by decide)

/-- C5: `remove_certification` has the same two failure modes as update:
an absent id fails with `CertificationNotFound`, an existing record owned
by someone else fails with `NotOwner`; in both cases the chain state
(store and event log) is unchanged. -/
theorem c5_remove_failure_modes (hash_of : AccountId → HashVal)
    (who : AccountId) (cid : HashVal) (n : BlockNumber) (st : ChainState) :
    (Store.get st.store cid = none →
      remove_certification who cid st.store =
        Except.error Error.CertificationNotFound ∧
      step hash_of (Op.remove who cid) n st = st) ∧
    (∀ c : Certification, Store.get st.store cid = some c → c.owner_id ≠ who →
      remove_certification who cid st.store = Except.error Error.NotOwner ∧
      step hash_of (Op.remove who cid) n st = st) := by
  constructor
  · intro habs
    have herr : remove_certification who cid st.store =
        Except.error Error.CertificationNotFound := by
      rw [remove_certification, habs]
    exact ⟨herr, by rw [step, opResult, herr]⟩
  · intro c hget hown
    have herr : remove_certification who cid st.store =
        Except.error Error.NotOwner := by
      rw [remove_certification, hget]
      simp [Certification.get_owner_id, hown]
    exact ⟨herr, by rw [step, opResult, herr]⟩

/-- C5 witness: both failure modes at concrete inputs — an absent id on
the genesis state, and Bob removing Alice's record. -/
theorem c5_remove_failure_modes_witness :
    (remove_certification 2 7 Store.empty =
        Except.error Error.CertificationNotFound ∧
      step hashOf (Op.remove 2 7) 4 ⟨Store.empty, []⟩ = ⟨Store.empty, []⟩) ∧
    (remove_certification 2 101
          (Store.insert Store.empty 101 (Certification.new 101 1 [] [] 3 3)) =
        Except.error Error.NotOwner ∧
      step hashOf (Op.remove 2 101)
          4 ⟨Store.insert Store.empty 101 (Certification.new 101 1 [] [] 3 3), []⟩ =
        ⟨Store.insert Store.empty 101 (Certification.new 101 1 [] [] 3 3), []⟩) :=
  ⟨(c5_remove_failure_modes hashOf 2 7 4 ⟨Store.empty, []⟩).1 rfl,
   (c5_remove_failure_modes hashOf 2 101 4
      ⟨Store.insert Store.empty 101 (Certification.new 101 1 [] [] 3 3), []⟩).2
     (Certification.new 101 1 [] [] 3 3) rfl (by decide)⟩

/-- C6: two consecutive `add_certification` calls by the same caller leave
exactly one record at `hash_of a` — the second call's title and
description (and its block number as both timestamps) — and touch no
other key. -/
theorem c6_second_add_overwrites (hash_of : AccountId → HashVal)
    (a : AccountId) (t d t₂ d₂ : Bytes) (n₁ n₂ : BlockNumber)
    (st : ChainState) :
    Store.get (step hash_of (Op.add a t₂ d₂) n₂
        (step hash_of (Op.add a t d) n₁ st)).store (hash_of a) =
      some (Certification.new (hash_of a) a t₂ d₂ n₂ n₂) ∧
    ∀ k : HashVal, k ≠ hash_of a →
      Store.get (step hash_of (Op.add a t₂ d₂) n₂
          (step hash_of (Op.add a t d) n₁ st)).store k =
        Store.get st.store k := by
  constructor
  · simp [step, opResult, add_certification, Store.get, Store.insert]
  · intro k hk
    simp [step, opResult, add_certification, Store.get, Store.insert, hk]

/-- C6 witness: Alice adds twice at blocks 1 and 2; key 3 is untouched. -/
theorem c6_second_add_overwrites_witness :
    Store.get (step hashOf (Op.add 1 [4] [5]) 2
        (step hashOf (Op.add 1 [2] [3]) 1 ⟨Store.empty, []⟩)).store
      (hashOf 1) = some (Certification.new (hashOf 1) 1 [4] [5] 2 2) ∧
    Store.get (step hashOf (Op.add 1 [4] [5]) 2
        (step hashOf (Op.add 1 [2] [3]) 1 ⟨Store.empty, []⟩)).store 3 =
      Store.get Store.empty 3 :=
  ⟨(c6_second_add_overwrites hashOf 1 [2] [3] [4] [5] 1 2 ⟨Store.empty, []⟩).1,
   (c6_second_add_overwrites hashOf 1 [2] [3] [4] [5] 1 2 ⟨Store.empty, []⟩).2
     3 (by decide)⟩

/-- A successful dispatch deposits exactly the single matching event. -/
theorem opResult_ok_events (hash_of : AccountId → HashVal) (op : Op)
    (n : BlockNumber) (s s₂ : Store) (evs : List Event)
    (h : opResult hash_of op n s = Except.ok (s₂, evs)) :
    evs = [expectedEvent hash_of op n] := by
  cases op with
  | add who t d =>
    simp only [opResult, add_certification, Except.ok.injEq,
      Prod.mk.injEq] at h
    simp [expectedEvent, h.2.symm]
  | update who cid t d =>
    rw [opResult, update_certification] at h
    split at h
    · cases h
    · split at h
      · simp only [Except.ok.injEq, Prod.mk.injEq] at h
        simp [expectedEvent, h.2.symm]
      · cases h
  | remove who cid =>
    rw [opResult, remove_certification] at h
    split at h
    · cases h
    · split at h
      · simp only [Except.ok.injEq, Prod.mk.injEq] at h
        simp [expectedEvent, h.2.symm]
      · cases h

/-- C8: the event log after a dispatch gains exactly one event — the
matching one — when the dispatch succeeds, and gains nothing when it
fails. -/
theorem c8_exactly_one_matching_event (hash_of : AccountId → HashVal)
    (op : Op) (n : BlockNumber) (st : ChainState) :
    (step hash_of op n st).events =
      st.events ++
        (match opResult hash_of op n st.store with
         | Except.ok _ => [expectedEvent hash_of op n]
         | Except.error _ => []) := by
  rw [step]
  cases hr : opResult hash_of op n st.store with
  | error e => simp
  | ok p =>
    cases p with
    | mk s₂ evs => simp [opResult_ok_events hash_of op n st.store s₂ evs hr]

/-- A successful dispatch leaves every key other than its touched key
unchanged in the resulting store. -/
theorem opResult_ok_frame (hash_of : AccountId → HashVal) (op : Op)
    (n : BlockNumber) (s s₂ : Store) (evs : List Event)
    (h : opResult hash_of op n s = Except.ok (s₂, evs)) (k : HashVal)
    (hk : k ≠ touchedKey hash_of op) :
    Store.get s₂ k = Store.get s k := by
  cases op with
  | add who t d =>
    simp only [touchedKey] at hk
    simp only [opResult, add_certification, Except.ok.injEq,
      Prod.mk.injEq] at h
    rw [← h.1]
    simp [Store.get, Store.insert, hk]
  | update who cid t d =>
    simp only [touchedKey] at hk
    rw [opResult, update_certification] at h
    split at h
    · cases h
    · split at h
      · simp only [Except.ok.injEq, Prod.mk.injEq] at h
        rw [← h.1]
        simp [Store.get, Store.insert, hk]
      · cases h
  | remove who cid =>
    simp only [touchedKey] at hk
    rw [opResult, remove_certification] at h
    split at h
    · cases h
    · split at h
      · simp only [Except.ok.injEq, Prod.mk.injEq] at h
        rw [← h.1]
        simp [Store.get, Store.remove, hk]
      · cases h

/-- C10: one dispatch changes the store at most at its touched key
(`hash_of who` for add, the given id for update and remove); every other
key is unchanged, whether the dispatch succeeds or fails. -/
theorem c10_store_frame (hash_of : AccountId → HashVal) (op : Op)
    (n : BlockNumber) (st : ChainState) (k : HashVal)
    (hk : k ≠ touchedKey hash_of op) :
    Store.get (step hash_of op n st).store k = Store.get st.store k := by
  rw [step]
  cases hr : opResult hash_of op n st.store with
  | error e => rfl
  | ok p =>
    cases p with
    | mk s₂ evs => exact opResult_ok_frame hash_of op n st.store s₂ evs hr k hk

/-- C10 witness: Alice's add at block 5 leaves key 3 untouched. -/
theorem c10_store_frame_witness :
    Store.get (step hashOf (Op.add 1 [] []) 5 ⟨Store.empty, []⟩).store 3 =
      Store.get Store.empty 3 :=
  c10_store_frame hashOf (Op.add 1 [] []) 5 ⟨Store.empty, []⟩ 3 (by decide)

/-- Any record present after one dispatch either was already there, was
freshly written by `add_certification`, or was rewritten in place by
`update_certification` from a prior record with the caller as owner. -/
theorem step_store_sources (hash_of : AccountId → HashVal) (op : Op)
    (n : BlockNumber) (st : ChainState) (k : HashVal) (c : Certification)
    (h : Store.get (step hash_of op n st).store k = some c) :
    Store.get st.store k = some c ∨
    (∃ who t d, c = Certification.new (hash_of who) who t d n n ∧
      k = hash_of who) ∨
    (∃ who t d c₀, Store.get st.store k = some c₀ ∧ c₀.owner_id = who ∧
      c = Certification.new k who t d c₀.created_at n) := by
  cases op with
  | add who t d =>
    simp only [step, opResult, add_certification] at h
    by_cases hkey : k = hash_of who
    · subst hkey
      simp only [Store.get, Store.insert, if_true, eq_self_iff_true,
        Option.some.injEq] at h
      exact Or.inr (Or.inl ⟨who, t, d, h.symm, rfl⟩)
    · left
      simpa [Store.get, Store.insert, hkey] using h
  | update who cid t d =>
    cases hu : Store.get st.store cid with
    | none =>
      left
      simp only [step, opResult, update_certification, hu] at h
      exact h
    | some c₀ =>
      by_cases ho : c₀.get_owner_id = who
      · simp only [step, opResult, update_certification, hu, if_pos ho] at h
        by_cases hkey : k = cid
        · subst hkey
          simp only [Store.get, Store.insert, if_true, eq_self_iff_true,
            Option.some.injEq] at h
          refine Or.inr (Or.inr ⟨who, t, d, c₀, hu, ?_, h.symm⟩)
          simpa [Certification.get_owner_id] using ho
        · left
          simpa [Store.get, Store.insert, hkey] using h
      · left
        simp only [step, opResult, update_certification, hu, if_neg ho] at h
        exact h
  | remove who cid =>
    cases hu : Store.get st.store cid with
    | none =>
      left
      simp only [step, opResult, remove_certification, hu] at h
      exact h
    | some c₀ =>
      by_cases ho : c₀.get_owner_id = who
      · simp only [step, opResult, remove_certification, hu, if_pos ho] at h
        by_cases hkey : k = cid
        · subst hkey
          simp [Store.get, Store.remove] at h
        · left
          simpa [Store.get, Store.remove, hkey] using h
      · left
        simp only [step, opResult, remove_certification, hu, if_neg ho] at h
        exact h

/-- Every record in a reachable state was stamped no later than the
latest dispatch and was created no later than it was last updated. -/
theorem reachable_time_bounds (hash_of : AccountId → HashVal)
    {n : BlockNumber} {st : ChainState} (h : Reachable hash_of n st) :
    ∀ k c, Store.get st.store k = some c →
      c.created_at ≤ c.updated_at ∧ c.updated_at ≤ n := by
  induction h with
  | init =>
    intro k c hc
    simp [Store.get, Store.empty] at hc
  | next op hr hle ih =>
    intro k c hc
    rcases step_store_sources _ _ _ _ _ _ hc with hold |
      ⟨who, t, d, hcert, hkey⟩ | ⟨who, t, d, c₀, hc₀, hown, hcert⟩
    · exact ⟨(ih k c hold).1, le_trans (ih k c hold).2 hle⟩
    · subst hcert
      simp [Certification.new]
    · subst hcert
      have h₀ := ih k c₀ hc₀
      exact ⟨le_trans h₀.1 (le_trans h₀.2 hle), le_refl _⟩

/-- C7: in every reachable state — dispatches applied at non-decreasing
block numbers from genesis — every stored record satisfies
`created_at ≤ updated_at`. -/
theorem c7_created_le_updated (hash_of : AccountId → HashVal)
    {n : BlockNumber} {st : ChainState} (h : Reachable hash_of n st)
    (k : HashVal) (c : Certification)
    (hc : Store.get st.store k = some c) :
    c.created_at ≤ c.updated_at :=
  (reachable_time_bounds hash_of h k c hc).1

/-- C7 witness: the record Alice's add at block 5 leaves in storage. -/
theorem c7_created_le_updated_witness :
    Certification.created_at (Certification.new 101 1 [2] [3] 5 5) ≤
      Certification.updated_at (Certification.new 101 1 [2] [3] 5 5) :=
  c7_created_le_updated hashOf
    (Reachable.next (Op.add 1 [2] [3]) Reachable.init (Nat.zero_le 5)) 101
    (Certification.new 101 1 [2] [3] 5 5) (by decide)

/-- C9: in every reachable state, a stored record's `id` field equals the
storage key it sits under and equals `hash_of` of its own owner. -/
theorem c9_id_matches_key_and_owner (hash_of : AccountId → HashVal)
    {n : BlockNumber} {st : ChainState} (h : Reachable hash_of n st) :
    ∀ k c, Store.get st.store k = some c →
      c.id = k ∧ c.id = hash_of c.owner_id := by
  induction h with
  | init =>
    intro k c hc
    simp [Store.get, Store.empty] at hc
  | next op hr hle ih =>
    intro k c hc
    rcases step_store_sources _ _ _ _ _ _ hc with hold |
      ⟨who, t, d, hcert, hkey⟩ | ⟨who, t, d, c₀, hc₀, hown, hcert⟩
    · exact ih k c hold
    · subst hcert
      subst hkey
      simp [Certification.new]
    · subst hcert
      have h₀ := ih k c₀ hc₀
      have hkey : k = hash_of who := by rw [← h₀.1, h₀.2, hown]
      exact ⟨rfl, by simpa [Certification.new] using hkey⟩

/-- C9 witness: the record Alice's add at block 5 leaves in storage has
its id equal to its key and to the hash of its owner. -/
theorem c9_id_matches_key_and_owner_witness :
    Certification.id (Certification.new 101 1 [2] [3] 5 5) = 101 ∧
    Certification.id (Certification.new 101 1 [2] [3] 5 5) =
      hashOf (Certification.owner_id (Certification.new 101 1 [2] [3] 5 5)) :=
  c9_id_matches_key_and_owner hashOf
    (Reachable.next (Op.add 1 [2] [3]) Reachable.init (Nat.zero_le 5)) 101
    (Certification.new 101 1 [2] [3] 5 5) (by decide)
